import Mathlib

/-!
Shallow embedding of the scheduling core of the SIHMain2025 repository
(src/core/models.py, src/core/greedy_scheduler.py, src/core/solver.py,
src/sim/simulator.py, src/api.py), with theorems checking the
natural-language specification against it.

Timestamps are Python integers, embedded as `Int`. Fallible or possibly
non-terminating code returns `Except`/`Option`; the greedy scheduler's
unbounded `while` loops are embedded with an explicit fuel parameter, so
`some` results coincide with the Python run that terminates.
-/

/-- models.py `Section` dataclass (lines 6-20). Plain record; the dataclass
performs no validation of its fields. `conflicts_with` / `conflict_groups`
dictionaries are embedded as association lists. -/
structure Section where
  id : String
  headway_seconds : Int
  traverse_seconds : Int
  block_windows : Option (List (Int × Int)) := none
  platform_capacity : Option Int := none
  conflicts_with : Option (List (String × Int)) := none
  conflict_groups : Option (List (String × Int)) := none
deriving DecidableEq, Repr

/-- models.py `TrainRequest` dataclass (lines 22-32). -/
structure TrainRequest where
  id : String
  priority : Int
  route_sections : List String
  planned_departure : Int
  dwell_before : Option (List (String × Int)) := none
  due_time : Option Int := none
deriving DecidableEq, Repr

/-- models.py `ScheduleItem` dataclass (lines 34-39). -/
structure ScheduleItem where
  train_id : String
  section_id : String
  entry : Int
  exit : Int
deriving DecidableEq, Repr

/-- models.py `NetworkModel` dataclass (lines 41-43). -/
structure NetworkModel where
  sections : List Section
deriving DecidableEq, Repr

deriving instance DecidableEq for Except

/-- The loop body of `NetworkModel.section_by_id` (models.py lines 45-49):
scan the declared sections in order and return the first whose id matches;
raise `KeyError` (embedded as `Except.error`) when none does. -/
def findSection (sid : String) : List Section → Except String Section
  | [] => Except.error ("Section " ++ sid ++ " not found")
  | s :: rest => if s.id = sid then Except.ok s else findSection sid rest

/-- models.py `NetworkModel.section_by_id` (lines 45-49). -/
def NetworkModel.section_by_id (net : NetworkModel) (sid : String) : Except String Section :=
  findSection sid net.sections

/-- The generated dataclass initializer for `Section`: field assignment only,
no validation (models.py lines 6-20 declare no `__post_init__`). -/
def Section.init (id : String) (headway_seconds traverse_seconds : Int)
    (block_windows : Option (List (Int × Int))) (platform_capacity : Option Int)
    (conflicts_with conflict_groups : Option (List (String × Int))) : Section :=
  ⟨id, headway_seconds, traverse_seconds, block_windows, platform_capacity,
   conflicts_with, conflict_groups⟩

/-- The generated dataclass initializer for `TrainRequest`: field assignment
only, no validation. -/
def TrainRequest.init (id : String) (priority : Int) (route_sections : List String)
    (planned_departure : Int) (dwell_before : Option (List (String × Int)))
    (due_time : Option Int) : TrainRequest :=
  ⟨id, priority, route_sections, planned_departure, dwell_before, due_time⟩

/-! ## Greedy scheduler (greedy_scheduler.py) -/

/-- greedy_scheduler.py `_insert_occupancy` (lines 70-75): insert an item into
the per-section occupancy list, keeping it sorted by `entry`; the new item is
placed after existing items whose `entry` is less than or equal to its own. -/
def insert_occupancy (occ : List ScheduleItem) (item : ScheduleItem) : List ScheduleItem :=
  match occ with
  | [] => [item]
  | x :: rest =>
    if x.entry ≤ item.entry then x :: insert_occupancy rest item
    else item :: x :: rest

/-- One pass of the block-window `for` loop inside `_find_earliest`
(greedy_scheduler.py lines 47-51): fold over all windows, jumping the entry to
the window's end whenever the candidate occupancy overlaps it, and record
whether any jump happened (`moved_for_block`). -/
def blockScan (traverse : Int) (blocks : List (Int × Int)) (entry : Int) : Int × Bool :=
  blocks.foldl
    (fun st w => if st.1 + traverse ≤ w.1 ∨ w.2 ≤ st.1 then st else (w.2, true))
    (entry, false)

/-- The inner `while i < len(occ)` loop of `_find_earliest`
(greedy_scheduler.py lines 55-64), with fuel: whenever the candidate interval
neither clears the scanned interval on the left (with headway) nor starts at
or after its exit plus headway, push the entry to `exit + headway` and restart
the scan at index 0. `none` means the fuel ran out. -/
def occScan (headway traverse : Int) (occ : List ScheduleItem) :
    Nat → Nat → Int → Option Int
  | 0, _, _ => none
  | fuel + 1, i, entry =>
    if h : i < occ.length then
      let cur := occ.get ⟨i, h⟩
      let eap := cur.exit + headway
      if entry + traverse + headway ≤ cur.entry ∨ eap ≤ entry then
        occScan headway traverse occ fuel (i + 1) entry
      else
        occScan headway traverse occ fuel 0 (max eap (cur.exit + headway))
    else
      some entry

/-- The outer `while True` loop of `_find_earliest` (greedy_scheduler.py lines
44-66): run the block pass; if it moved the entry, loop again; otherwise run
the occupancy scan and return its result. Note the source `break`s right
after the occupancy scan, without rechecking block windows. -/
def findEarliestAux (headway traverse : Int) (occ : List ScheduleItem)
    (blocks : List (Int × Int)) : Nat → Int → Option Int
  | 0, _ => none
  | fuel + 1, entry =>
    let bp := blockScan traverse blocks entry
    if bp.2 then findEarliestAux headway traverse occ blocks fuel bp.1
    else occScan headway traverse occ (fuel + 1) 0 entry

/-- greedy_scheduler.py `_find_earliest` (lines 39-67), with fuel. -/
def find_earliest (fuel : Nat) (start headway traverse : Int)
    (occ : List ScheduleItem) (blocks : List (Int × Int)) : Option Int :=
  findEarliestAux headway traverse occ blocks fuel start

/-- Stable insertion of a train into an already-sorted prefix, placing it
after all trains that compare less-or-equal. Together with `sortTrains` this
is a stable sort, which agrees with Python's stable `sorted`. -/
def insertTrain (le : TrainRequest → TrainRequest → Bool) (t : TrainRequest) :
    List TrainRequest → List TrainRequest
  | [] => [t]
  | b :: bs => if le b t then b :: insertTrain le t bs else t :: b :: bs

/-- The sort key of greedy_scheduler.py line 15: `(-priority, planned_departure)`
compared lexicographically. -/
def trainLE (a b : TrainRequest) : Bool :=
  decide (b.priority < a.priority ∨
    (a.priority = b.priority ∧ a.planned_departure ≤ b.planned_departure))

/-- greedy_scheduler.py line 15: stable sort of the trains by
`(-priority, planned_departure)`. -/
def sortTrains (ts : List TrainRequest) : List TrainRequest :=
  ts.foldl (fun acc t => insertTrain trainLE t acc) []

/-- The inner `for sid in t.route_sections` loop of `schedule_trains`
(greedy_scheduler.py lines 20-34). The per-section occupancy dictionary is
embedded as a total function from section ids (it is initialized with an
empty list for every section of the network, and is only read at ids for
which `section_by_id` succeeded). `none` embeds a raised `KeyError` (unknown
section) or fuel exhaustion. -/
def scheduleSections (fuel : Nat) (net : NetworkModel) (t : TrainRequest) :
    List String → Int → (String → List ScheduleItem) → List ScheduleItem →
    Option ((String → List ScheduleItem) × List ScheduleItem)
  | [], _, occ, acc => some (occ, acc)
  | sid :: rest, prev_exit, occ, acc =>
    match net.section_by_id sid with
    | Except.error _ => none
    | Except.ok sec =>
      let headway := sec.headway_seconds
      let traverse := sec.traverse_seconds
      let entry0 := max prev_exit t.planned_departure
      match find_earliest fuel entry0 headway traverse (occ sid) (sec.block_windows.getD []) with
      | none => none
      | some entry =>
        let item : ScheduleItem := ⟨t.id, sid, entry, entry + traverse⟩
        scheduleSections fuel net t rest (entry + traverse + headway)
          (fun s => if s = sid then insert_occupancy (occ sid) item else occ s)
          (acc ++ [item])

/-- The outer `for t in trains_sorted` loop of `schedule_trains`
(greedy_scheduler.py lines 17-34). -/
def scheduleLoop (fuel : Nat) (net : NetworkModel) :
    List TrainRequest → (String → List ScheduleItem) → List ScheduleItem →
    Option (List ScheduleItem)
  | [], _, acc => some acc
  | t :: rest, occ, acc =>
    match scheduleSections fuel net t t.route_sections t.planned_departure occ acc with
    | none => none
    | some (occ2, acc2) => scheduleLoop fuel net rest occ2 acc2

/-- greedy_scheduler.py `schedule_trains` (lines 9-36), with fuel. -/
def Greedy.schedule_trains (fuel : Nat) (trains : List TrainRequest)
    (net : NetworkModel) : Option (List ScheduleItem) :=
  scheduleLoop fuel net (sortTrains trains) (fun _ => []) []

/-! ## Solver dispatcher (solver.py) -/

/-- A Python exception kind raised at a call boundary. -/
inductive PyError where
  | typeError : PyError
deriving DecidableEq, Repr

/-- The parameter names of `schedule_trains_milp` (milp_scheduler.py line 121):
`def schedule_trains_milp(network, trains)`. -/
def milpParamNames : List String := ["network", "trains"]

/-- Whether a Python call may pass the given keyword argument: the callee's
signature must contain a parameter of that name (there is no `**kwargs`). -/
def pyAcceptsKeyword (params : List String) (kw : String) : Bool :=
  params.contains kw

/-- The call `schedule_trains_milp(network, trains, time_limit=milp_time_limit)`
made by solver.py line 11. Since `time_limit` is not a parameter of the callee
(milpParamNames), Python raises `TypeError` before the callee's body runs; the
body itself is therefore abstracted by `milpImpl` (it is never reached). -/
def Solver.milpCall (milpImpl : NetworkModel → List TrainRequest → Option (List ScheduleItem))
    (network : NetworkModel) (trains : List TrainRequest) (timeLimit : Option Int) :
    Except PyError (List ScheduleItem) :=
  if pyAcceptsKeyword milpParamNames "time_limit" then
    match milpImpl network trains, timeLimit with
    | some r, _ => Except.ok r
    | none, _ => Except.error PyError.typeError
  else Except.error PyError.typeError

/-- solver.py `schedule_trains` (lines 8-15): on `solver == "milp"` try the
MILP call and fall back to greedy on any exception; otherwise run greedy. -/
def Solver.schedule_trains (milpImpl : NetworkModel → List TrainRequest → Option (List ScheduleItem))
    (fuel : Nat) (trains : List TrainRequest) (network : NetworkModel)
    (solver : String) (milp_time_limit : Option Int) : Option (List ScheduleItem) :=
  if solver = "milp" then
    match Solver.milpCall milpImpl network trains milp_time_limit with
    | Except.ok r => some r
    | Except.error _ => Greedy.schedule_trains fuel trains network
  else Greedy.schedule_trains fuel trains network

/-! ## Soundness of the occupancy scan -/

/-- The separation condition the occupancy scan enforces between a candidate
entry and an already-scheduled interval (greedy_scheduler.py line 60):
either the candidate clears the interval on the left including headway, or it
starts at or after the interval's exit plus headway. -/
def sepAfter (headway traverse e : Int) (cur : ScheduleItem) : Prop :=
  e + traverse + headway ≤ cur.entry ∨ cur.exit + headway ≤ e

instance (headway traverse e : Int) (cur : ScheduleItem) :
    Decidable (sepAfter headway traverse e cur) := by
  unfold sepAfter; infer_instance

theorem insert_occupancy_mem (occ : List ScheduleItem) (item x : ScheduleItem) :
    x ∈ insert_occupancy occ item ↔ x ∈ occ ∨ x = item := by
  induction occ with
  | nil => simp [insert_occupancy]
  | cons y rest ih =>
    rw [insert_occupancy]
    split
    · simp [ih]; tauto
    · simp; tauto

/-- If the inner occupancy `while` loop returns, every stored interval
satisfies the separation condition at the returned entry (indices below the
scan position must already satisfy it at the current entry). -/
theorem occScan_sound (headway traverse : Int) (occ : List ScheduleItem) :
    ∀ (fuel i : Nat) (entry e : Int),
      (∀ cur ∈ occ.take i, sepAfter headway traverse entry cur) →
      occScan headway traverse occ fuel i entry = some e →
      ∀ cur ∈ occ, sepAfter headway traverse e cur := by
  intro fuel
  induction fuel with
  | zero => intro i entry e _ h; simp [occScan] at h
  | succ fuel ih =>
    intro i entry e hpre h
    rw [occScan] at h
    split at h
    case isTrue hlen =>
      dsimp only at h
      split at h
      case isTrue hcond =>
        refine ih (i + 1) entry e ?_ h
        intro cur hcur
        rw [List.take_succ] at hcur
        rcases List.mem_append.mp hcur with hmem | hmem
        · exact hpre cur hmem
        · have hget : occ.get? i = some (occ.get ⟨i, hlen⟩) := List.get?_eq_get hlen
          rw [List.getElem?_eq_getElem hlen] at hmem
          simp at hmem
          subst hmem
          exact hcond
      case isFalse hcond =>
        refine ih 0 _ e ?_ h
        intro cur hcur
        simp at hcur
    case isFalse hlen =>
      have he : entry = e := by
        injection h
      subst he
      intro cur hcur
      apply hpre
      rwa [List.take_of_length_le (Nat.le_of_not_lt hlen)]

/-- If `_find_earliest` returns, the returned entry satisfies the separation
condition against every interval already stored for the section. -/
theorem findEarliestAux_sound (headway traverse : Int) (occ : List ScheduleItem)
    (blocks : List (Int × Int)) :
    ∀ (fuel : Nat) (entry e : Int),
      findEarliestAux headway traverse occ blocks fuel entry = some e →
      ∀ cur ∈ occ, sepAfter headway traverse e cur := by
  intro fuel
  induction fuel with
  | zero => intro entry e h; simp [findEarliestAux] at h
  | succ fuel ih =>
    intro entry e h
    rw [findEarliestAux] at h
    split at h
    · exact ih _ e h
    · exact occScan_sound headway traverse occ (fuel + 1) 0 entry e (by simp) h

theorem find_earliest_sound (fuel : Nat) (start headway traverse : Int)
    (occ : List ScheduleItem) (blocks : List (Int × Int)) (e : Int)
    (h : find_earliest fuel start headway traverse occ blocks = some e) :
    ∀ cur ∈ occ, sepAfter headway traverse e cur :=
  findEarliestAux_sound headway traverse occ blocks fuel start e h

/-! ## The same-section separation invariant of the greedy scheduler -/

/-- Two schedule items on the same section are separated by at least
traverse plus headway (of the section the scheduler looked up for that id),
in one of the two orders. -/
def sameSectionSeparated (net : NetworkModel) (A B : ScheduleItem) : Prop :=
  ∀ sec : Section, A.section_id = B.section_id →
    net.section_by_id A.section_id = Except.ok sec →
    (A.entry + sec.traverse_seconds + sec.headway_seconds ≤ B.entry ∨
     B.entry + sec.traverse_seconds + sec.headway_seconds ≤ A.entry)

/-- Invariant tying the occupancy map to the accumulated result list:
every emitted item is stored under its section id; every stored item belongs
to the result, lives on its own section, and its exit is entry plus the
section's traverse time; and the result is pairwise separated. -/
def occWF (net : NetworkModel) (occ : String → List ScheduleItem)
    (acc : List ScheduleItem) : Prop :=
  (∀ it ∈ acc, it ∈ occ it.section_id) ∧
  (∀ sid : String, ∀ it ∈ occ sid, it.section_id = sid ∧ it ∈ acc ∧
    ∀ sec : Section, net.section_by_id sid = Except.ok sec →
      it.exit = it.entry + sec.traverse_seconds) ∧
  acc.Pairwise (sameSectionSeparated net)

theorem scheduleSections_wf (fuel : Nat) (net : NetworkModel) (t : TrainRequest) :
    ∀ (route : List String) (prev : Int) (occ : String → List ScheduleItem)
      (acc : List ScheduleItem) (occ2 : String → List ScheduleItem)
      (acc2 : List ScheduleItem),
      occWF net occ acc →
      scheduleSections fuel net t route prev occ acc = some (occ2, acc2) →
      occWF net occ2 acc2 := by
  intro route
  induction route with
  | nil =>
    intro prev occ acc occ2 acc2 hwf h
    rw [scheduleSections] at h
    injection h with h'
    injection h' with h1 h2
    subst h1; subst h2
    exact hwf
  | cons sid rest ih =>
    intro prev occ acc occ2 acc2 hwf h
    rw [scheduleSections] at h
    rcases hsec : net.section_by_id sid with msg | sec
    · rw [hsec] at h; exact absurd h (by simp)
    rw [hsec] at h
    dsimp only at h
    rcases hfe : find_earliest fuel (max prev t.planned_departure) sec.headway_seconds
        sec.traverse_seconds (occ sid) (sec.block_windows.getD []) with _ | entry
    · rw [hfe] at h; exact absurd h (by simp)
    rw [hfe] at h
    dsimp only at h
    refine ih _ _ _ occ2 acc2 ?_ h
    obtain ⟨W1, W2, W3⟩ := hwf
    have hsep := find_earliest_sound fuel (max prev t.planned_departure)
      sec.headway_seconds sec.traverse_seconds (occ sid)
      (sec.block_windows.getD []) entry hfe
    refine ⟨?_, ?_, ?_⟩
    · intro it hit
      rcases List.mem_append.mp hit with hmem | hmem
      · have := W1 it hmem
        by_cases hcase : it.section_id = sid
        · rw [hcase] at this ⊢
          simp only [if_pos rfl]
          exact (insert_occupancy_mem _ _ _).mpr (Or.inl this)
        · simpa [hcase] using this
      · have : it = ⟨t.id, sid, entry, entry + sec.traverse_seconds⟩ := by
          simpa using hmem
        subst this
        simp only [if_pos rfl]
        exact (insert_occupancy_mem _ _ _).mpr (Or.inr rfl)
    · intro s it hit
      dsimp only at hit
      by_cases hcase : s = sid
      · subst hcase
        rw [if_pos rfl] at hit
        rcases (insert_occupancy_mem _ _ _).mp hit with hmem | hmem
        · obtain ⟨h1, h2, h3⟩ := W2 s it hmem
          exact ⟨h1, List.mem_append.mpr (Or.inl h2), h3⟩
        · subst hmem
          refine ⟨rfl, List.mem_append.mpr (Or.inr (by simp)), ?_⟩
          intro sec' hsec'
          rw [hsec] at hsec'
          injection hsec' with hsec''
          subst hsec''
          rfl
      · rw [if_neg hcase] at hit
        obtain ⟨h1, h2, h3⟩ := W2 s it hit
        exact ⟨h1, List.mem_append.mpr (Or.inl h2), h3⟩
    · rw [List.pairwise_append]
      refine ⟨W3, List.pairwise_singleton _ _, ?_⟩
      intro A hA B hB
      have hB' : B = ⟨t.id, sid, entry, entry + sec.traverse_seconds⟩ := by
        simpa using hB
      subst hB'
      intro sec' hsid hsec'
      have hAsid : A.section_id = sid := hsid
      rw [hAsid] at hsec'
      rw [hsec] at hsec'
      injection hsec' with hsec''
      subst hsec''
      have hAocc : A ∈ occ sid := by
        have := W1 A hA
        rwa [hAsid] at this
      have hAsep := hsep A hAocc
      have hAexit : A.exit = A.entry + sec.traverse_seconds :=
        (W2 sid A hAocc).2.2 sec hsec
      rcases hAsep with hle | hle
      · right
        simpa using hle
      · left
        rw [hAexit] at hle
        simpa using by omega

theorem scheduleLoop_wf (fuel : Nat) (net : NetworkModel) :
    ∀ (ts : List TrainRequest) (occ : String → List ScheduleItem)
      (acc res : List ScheduleItem),
      occWF net occ acc →
      scheduleLoop fuel net ts occ acc = some res →
      ∃ occ2, occWF net occ2 res := by
  intro ts
  induction ts with
  | nil =>
    intro occ acc res hwf h
    rw [scheduleLoop] at h
    injection h with h'
    subst h'
    exact ⟨occ, hwf⟩
  | cons t rest ih =>
    intro occ acc res hwf h
    rw [scheduleLoop] at h
    rcases hstep : scheduleSections fuel net t t.route_sections t.planned_departure occ acc
      with _ | p
    · rw [hstep] at h; exact absurd h (by simp)
    · rw [hstep] at h
      dsimp only at h
      exact ih p.1 p.2 res (scheduleSections_wf fuel net t _ _ _ _ _ _ hwf
        (by rw [hstep])) h

theorem greedy_wf (fuel : Nat) (trains : List TrainRequest) (net : NetworkModel)
    (res : List ScheduleItem)
    (h : Greedy.schedule_trains fuel trains net = some res) :
    res.Pairwise (sameSectionSeparated net) ∧
    ∀ it ∈ res, ∀ sec : Section,
      net.section_by_id it.section_id = Except.ok sec →
      it.exit = it.entry + sec.traverse_seconds := by
  obtain ⟨occ2, W1, W2, W3⟩ := scheduleLoop_wf fuel net (sortTrains trains)
    (fun _ => []) [] res ⟨by simp, by simp, List.Pairwise.nil⟩ h
  refine ⟨W3, ?_⟩
  intro it hit sec hsec
  exact (W2 it.section_id it (W1 it hit)).2.2 sec hsec

/-- C5: in any schedule the greedy scheduler returns, any two distinct items
on the same section (with the section's headway and traverse non-negative, as
on valid input) have entries separated by at least traverse + headway in one
of the two orders; hence their occupancy intervals are disjoint and the later
entry is at least the earlier exit plus the headway. -/
theorem greedy_same_section_pair (fuel : Nat) (trains : List TrainRequest)
    (net : NetworkModel) (res : List ScheduleItem) (sec : Section)
    (i j : Fin res.length)
    (hres : Greedy.schedule_trains fuel trains net = some res)
    (hne : i ≠ j)
    (hsid : (res.get i).section_id = (res.get j).section_id)
    (hsec : net.section_by_id (res.get i).section_id = Except.ok sec)
    (hH : 0 ≤ sec.headway_seconds) (_hD : 0 ≤ sec.traverse_seconds) :
    ((res.get i).entry + sec.traverse_seconds + sec.headway_seconds ≤ (res.get j).entry ∨
     (res.get j).entry + sec.traverse_seconds + sec.headway_seconds ≤ (res.get i).entry) ∧
    ((res.get i).exit ≤ (res.get j).entry ∨ (res.get j).exit ≤ (res.get i).entry) ∧
    ((res.get i).entry ≤ (res.get j).entry →
      (res.get i).exit + sec.headway_seconds ≤ (res.get j).entry) := by
  obtain ⟨hpw, hexit⟩ := greedy_wf fuel trains net res hres
  have hexi : (res.get i).exit = (res.get i).entry + sec.traverse_seconds :=
    hexit _ (List.get_mem res i.1 i.2) sec hsec
  have hexj : (res.get j).exit = (res.get j).entry + sec.traverse_seconds := by
    refine hexit _ (List.get_mem res j.1 j.2) sec ?_
    rw [← hsid]
    exact hsec
  have hdisj : (res.get i).entry + sec.traverse_seconds + sec.headway_seconds ≤ (res.get j).entry ∨
      (res.get j).entry + sec.traverse_seconds + sec.headway_seconds ≤ (res.get i).entry := by
    rcases hne.lt_or_lt with hij | hji
    · exact List.pairwise_iff_get.mp hpw i j hij sec hsid hsec
    · have h := List.pairwise_iff_get.mp hpw j i hji sec hsid.symm (by rw [← hsid]; exact hsec)
      exact h.symm
  refine ⟨hdisj, ?_, ?_⟩
  · rcases hdisj with h | h
    · left; omega
    · right; omega
  · intro hle
    rcases hdisj with h | h
    · omega
    · omega

/-! ## Concrete scenarios -/

/-- Scenario A of the spec (section 8): one section S1 with headway 120 and
traverse 100. -/
def scnA_net : NetworkModel := ⟨[⟨"S1", 120, 100, none, none, none, none⟩]⟩

/-- Scenario A trains: T1 (priority 1, departure 0) and T2 (priority 2,
departure 60), both routed over S1. -/
def scnA_trains : List TrainRequest :=
  [⟨"T1", 1, ["S1"], 0, none, none⟩, ⟨"T2", 2, ["S1"], 60, none, none⟩]

/-- The schedule the greedy scheduler produces on Scenario A. -/
def scnA_res : List ScheduleItem :=
  [⟨"T2", "S1", 60, 160⟩, ⟨"T1", "S1", 280, 380⟩]

/-- C7: on Scenario A the greedy scheduler places T2 first with entry 60 and
exit 160, then T1 with entry 280 and exit 380. -/
theorem greedy_scenario_A :
    Greedy.schedule_trains 100 scnA_trains scnA_net = some scnA_res := by
  decide

/-- Witness for C5: instantiating the separation theorem on Scenario A's
schedule (items 0 and 1, both on S1). -/
theorem greedy_same_section_pair_witness :
    Greedy.schedule_trains 100 scnA_trains scnA_net = some scnA_res ∧
    (((60:Int) + 100 + 120 ≤ 280 ∨ (280:Int) + 100 + 120 ≤ 60) ∧
     ((160:Int) ≤ 280 ∨ (380:Int) ≤ 60) ∧
     ((60:Int) ≤ 280 → (160:Int) + 120 ≤ 280)) := by
  refine ⟨by decide, ?_⟩
  exact greedy_same_section_pair 100 scnA_trains scnA_net scnA_res
    ⟨"S1", 120, 100, none, none, none, none⟩ ⟨0, by decide⟩ ⟨1, by decide⟩
    (by decide) (by decide) (by decide) (by decide) (by decide) (by decide)

/-- Occupancy [e, e + traverse) overlaps window [w.1, w.2): the negation of
the clearance test at greedy_scheduler.py line 49. -/
def overlapsWindow (e traverse : Int) (w : Int × Int) : Prop :=
  ¬(e + traverse ≤ w.1 ∨ w.2 ≤ e)

instance (e traverse : Int) (w : Int × Int) : Decidable (overlapsWindow e traverse w) := by
  unfold overlapsWindow
  infer_instance

/-- Network exposing the missing block re-check: S1 with headway 0, traverse
30 and one block window [35, 50). -/
def blockedNet : NetworkModel :=
  ⟨[⟨"S1", 0, 30, some [(35, 50)], none, none, none⟩]⟩

/-- Two equal-priority trains departing at 0 over the blocked section. -/
def blockedTrains : List TrainRequest :=
  [⟨"T1", 1, ["S1"], 0, none, none⟩, ⟨"T2", 1, ["S1"], 0, none, none⟩]

/-- C2 failing run: after the occupancy scan shifts T2's entry to 30, the
loop breaks without rechecking block windows, so T2's occupancy [30, 60)
overlaps the block window [35, 50). -/
theorem greedy_block_overlap :
    Greedy.schedule_trains 100 blockedTrains blockedNet =
      some [⟨"T1", "S1", 0, 30⟩, ⟨"T2", "S1", 30, 60⟩] ∧
    overlapsWindow 30 30 (35, 50) :=
  ⟨by decide, by decide⟩

/-- Network of tests/test_dwell.py: S1 (headway 0, traverse 100) then S2
(headway 0, traverse 50). -/
def dwellNet : NetworkModel :=
  ⟨[⟨"S1", 0, 100, none, none, none, none⟩, ⟨"S2", 0, 50, none, none, none, none⟩]⟩

/-- The test_dwell.py train: route [S1, S2] with dwell_before S2 = 60. -/
def dwellTrain : TrainRequest :=
  ⟨"T1", 1, ["S1", "S2"], 0, some [("S2", 60)], none⟩

/-- C3 failing run: the greedy scheduler never reads dwell_before, so the S2
entry is 100, strictly less than entry on S1 plus traverse plus dwell
(0 + 100 + 60); the repository's own tests/test_dwell.py asserts the
opposite. -/
theorem greedy_ignores_dwell :
    Greedy.schedule_trains 100 [dwellTrain] dwellNet =
      some [⟨"T1", "S1", 0, 100⟩, ⟨"T1", "S2", 100, 150⟩] ∧
    ¬((0:Int) + 100 + 60 ≤ 100) :=
  ⟨by decide, by decide⟩

/-- A network whose only section was constructed with a negative headway. -/
def negNet : NetworkModel := ⟨[Section.init "S1" (-5) 10 none none none none]⟩

/-- Two trains routed over the negative-headway section. -/
def negTrains : List TrainRequest :=
  [TrainRequest.init "T1" 1 ["S1"] 0 none none,
   TrainRequest.init "T2" 1 ["S1"] 0 none none]

/-- C4 counterexample: constructing a Section with negative headway raises
nothing, and the greedy scheduler is invoked on it and returns a schedule
(whose occupancies [0, 10) and [5, 15) even overlap). -/
theorem invalid_input_reaches_scheduler :
    Greedy.schedule_trains 100 negTrains negNet =
      some [⟨"T1", "S1", 0, 10⟩, ⟨"T2", "S1", 5, 15⟩] := by
  decide

/-- C4 amended: the constructors validate nothing — for every field values,
including negative durations, construction succeeds and the greedy scheduler
runs on the result (here: one train, one section, returning a schedule that
starts at the planned departure). -/
theorem construction_unvalidated (sid tid : String) (h d dep prio : Int) :
    Greedy.schedule_trains 2 [TrainRequest.init tid prio [sid] dep none none]
      ⟨[Section.init sid h d none none none none]⟩ =
      some [⟨tid, sid, dep, dep + d⟩] := by
  simp [Greedy.schedule_trains, sortTrains, insertTrain, scheduleLoop, scheduleSections,
    NetworkModel.section_by_id, findSection, Section.init, TrainRequest.init,
    find_earliest, findEarliestAux, blockScan, occScan]

/-- Network of tests/test_due_time.py (first test): S1 with headway 60 and
traverse 50. -/
def milpTestNet : NetworkModel := ⟨[⟨"S1", 60, 50, none, none, none, none⟩]⟩

/-- Trains of tests/test_due_time.py: T1 (priority 3, due 400) and T2
(priority 1, due 200), both departing 0 over S1. -/
def milpTestTrains : List TrainRequest :=
  [⟨"T1", 3, ["S1"], 0, none, some 400⟩, ⟨"T2", 1, ["S1"], 0, none, some 200⟩]

/-- C1 failing run: the dispatcher's MILP call raises TypeError (the callee
has no time_limit parameter), so with solver "milp" the dispatcher returns
the greedy schedule — T1 first — even though a working MILP implementation
would return a different schedule; its result is never consulted. -/
theorem milp_dispatch_always_falls_back :
    Solver.milpCall (fun _ _ => some [⟨"MILP", "S1", 0, 50⟩]) milpTestNet milpTestTrains
        (some 10) = Except.error PyError.typeError ∧
    Solver.schedule_trains (fun _ _ => some [⟨"MILP", "S1", 0, 50⟩]) 100 milpTestTrains
        milpTestNet "milp" (some 10) =
      some [⟨"T1", "S1", 0, 50⟩, ⟨"T2", "S1", 110, 160⟩] :=
  ⟨by decide, by decide⟩

/-- C6: whatever the solver string, the MILP implementation and the time
limit, the dispatcher returns exactly the greedy scheduler's output, because
the "milp" branch's call always raises TypeError and is caught by the
fallback. -/
theorem dispatcher_always_greedy
    (milpImpl : NetworkModel → List TrainRequest → Option (List ScheduleItem))
    (fuel : Nat) (trains : List TrainRequest) (network : NetworkModel)
    (solver : String) (milp_time_limit : Option Int) :
    Solver.schedule_trains milpImpl fuel trains network solver milp_time_limit =
      Greedy.schedule_trains fuel trains network := by
  rw [Solver.schedule_trains]
  split
  · have hmc : Solver.milpCall milpImpl network trains milp_time_limit =
        Except.error PyError.typeError := rfl
    rw [hmc]
  · rfl

/-! ## KPI computer (simulator.py lateness_kpis) -/

/-- Python dict insertion: replace the value of an existing key in place,
else append the new binding (dicts preserve insertion order). -/
def upsert (m : List (String × Int)) (k : String) (v : Int) : List (String × Int) :=
  match m with
  | [] => [(k, v)]
  | p :: rest => if p.1 = k then (k, v) :: rest else p :: upsert rest k v

/-- One step of the `for t in trains` loop of `lateness_kpis`
(simulator.py lines 29-34): for a train with a due time and a non-empty
route, record max(0, first entry on the terminal section - due_time). -/
def latenessStep (items : List ScheduleItem) (m : List (String × Int))
    (t : TrainRequest) : List (String × Int) :=
  match t.due_time, t.route_sections.getLast? with
  | some due, some last_sid =>
    match (items.filter
        (fun it => it.train_id == t.id && it.section_id == last_sid)).map
        ScheduleItem.entry with
    | [] => m
    | e :: _ => upsert m t.id (max 0 (e - due))
  | _, _ => m

/-- The `lateness_by_train` dictionary of `lateness_kpis`
(simulator.py lines 28-34). -/
def lateness_map (items : List ScheduleItem) (trains : List TrainRequest) :
    List (String × Int) :=
  trains.foldl (latenessStep items) []

/-- The `otp_end` value of `lateness_kpis` (simulator.py lines 24-42):
0 when the schedule or the train set is empty or no train carries a due
time, else 100 times the fraction of due-timed trains whose lateness is at
most the tolerance. Real arithmetic is embedded as `ℚ`. -/
def otp_end (items : List ScheduleItem) (trains : List TrainRequest) (tol : Int) : ℚ :=
  if items = [] ∨ trains = [] then 0
  else
    let m := lateness_map items trains
    if m = [] then 0
    else 100 * (((m.filter (fun p => decide (p.2 ≤ tol))).length : ℚ)) / (m.length : ℚ)

theorem filterLength_mono {α : Type} (p q : α → Bool) (l : List α)
    (h : ∀ a, p a = true → q a = true) :
    (l.filter p).length ≤ (l.filter q).length := by
  induction l with
  | nil => simp
  | cons a rest ih =>
    by_cases hpa : p a = true
    · rw [List.filter_cons, if_pos hpa, List.filter_cons, if_pos (h a hpa)]
      simpa using ih
    · rw [List.filter_cons, if_neg hpa]
      rw [List.filter_cons]
      split
      · exact le_trans ih (by simp)
      · exact ih

/-- C8: the on-time percentage is monotone in the tolerance: for
0 ≤ tol ≤ tol', otp_end at tol' is at least otp_end at tol. -/
theorem otp_end_mono (items : List ScheduleItem) (trains : List TrainRequest)
    (tol tol' : Int) (_h0 : 0 ≤ tol) (h : tol ≤ tol') :
    otp_end items trains tol ≤ otp_end items trains tol' := by
  rw [otp_end, otp_end]
  split
  · exact le_refl _
  · dsimp only
    split
    · exact le_refl _
    case isFalse hm =>
      have hlen : 0 < ((lateness_map items trains).length : ℚ) := by
        have hne : lateness_map items trains ≠ [] := hm
        have : 0 < (lateness_map items trains).length := List.length_pos.mpr hne
        exact_mod_cast this
      rw [div_le_div_iff_of_pos_right hlen]
      have hcount := filterLength_mono
        (fun p => decide (p.2 ≤ tol)) (fun p => decide (p.2 ≤ tol'))
        (lateness_map items trains)
        (by intro a ha; simp only [decide_eq_true_eq] at ha ⊢; omega)
      have : (((lateness_map items trains).filter (fun p => decide (p.2 ≤ tol))).length : ℚ) ≤
          (((lateness_map items trains).filter (fun p => decide (p.2 ≤ tol'))).length : ℚ) := by
        exact_mod_cast hcount
      nlinarith

/-! ## section_by_id lookup spec -/

theorem findSection_ok_iff (l : List Section) (sid : String) (s : Section) :
    findSection sid l = Except.ok s ↔
      s.id = sid ∧ ∃ l1 l2, l = l1 ++ s :: l2 ∧ ∀ x ∈ l1, x.id ≠ sid := by
  induction l with
  | nil =>
    constructor
    · intro hcontra
      exact absurd hcontra (by simp [findSection])
    · rintro ⟨_, l1, l2, hl, _⟩
      cases l1 <;> simp at hl
  | cons a rest ih =>
    rw [findSection]
    by_cases hid : a.id = sid
    · rw [if_pos hid]
      constructor
      · intro hok
        injection hok with hok
        subst hok
        exact ⟨hid, [], rest, rfl, by simp⟩
      · rintro ⟨hs, l1, l2, hl, hnone⟩
        cases l1 with
        | nil =>
          simp at hl
          rw [hl.1]
        | cons b l1' =>
          simp at hl
          exact absurd (hl.1 ▸ hid) (hnone b (by simp))
    · rw [if_neg hid]
      rw [ih]
      constructor
      · rintro ⟨hs, l1, l2, hl, hnone⟩
        refine ⟨hs, a :: l1, l2, by rw [List.cons_append, hl], ?_⟩
        intro x hx
        rcases List.mem_cons.mp hx with hx | hx
        · rw [hx]; exact hid
        · exact hnone x hx
      · rintro ⟨hs, l1, l2, hl, hnone⟩
        cases l1 with
        | nil =>
          simp at hl
          exact absurd (hl.1 ▸ hs) hid
        | cons b l1' =>
          simp at hl
          exact ⟨hs, l1', l2, hl.2, fun x hx => hnone x (by simp [hx])⟩

theorem findSection_error_iff (l : List Section) (sid : String) :
    (∃ msg, findSection sid l = Except.error msg) ↔ ∀ s ∈ l, s.id ≠ sid := by
  induction l with
  | nil => simp [findSection]
  | cons a rest ih =>
    rw [findSection]
    by_cases hid : a.id = sid
    · rw [if_pos hid]
      simp [hid]
    · rw [if_neg hid]
      rw [ih]
      simp [hid]

/-- C9: `section_by_id` returns `ok s` exactly when `s` is the earliest
declared section with the looked-up id (everything declared before it has a
different id), and it raises (`error`) exactly when no declared section has
that id — so under duplicate ids every lookup resolves to the earliest
declaration. -/
theorem section_by_id_spec (net : NetworkModel) (sid : String) :
    (∀ s : Section, net.section_by_id sid = Except.ok s ↔
      s.id = sid ∧ ∃ l1 l2, net.sections = l1 ++ s :: l2 ∧ ∀ x ∈ l1, x.id ≠ sid) ∧
    ((∃ msg, net.section_by_id sid = Except.error msg) ↔
      ∀ s ∈ net.sections, s.id ≠ sid) :=
  ⟨fun s => findSection_ok_iff net.sections sid s, findSection_error_iff net.sections sid⟩

/-- A network declaring two sections with the duplicate id "A". -/
def dupNet : NetworkModel :=
  ⟨[⟨"A", 1, 2, none, none, none, none⟩, ⟨"B", 3, 4, none, none, none, none⟩,
    ⟨"A", 9, 9, none, none, none, none⟩]⟩

/-- Witness for C9: on a network with duplicate id "A", the lookup resolves
to the earliest declaration. -/
theorem section_by_id_spec_witness :
    dupNet.section_by_id "A" = Except.ok ⟨"A", 1, 2, none, none, none, none⟩ :=
  ((section_by_id_spec dupNet "A").1 ⟨"A", 1, 2, none, none, none, none⟩).mpr
    ⟨rfl, [], [⟨"B", 3, 4, none, none, none, none⟩, ⟨"A", 9, 9, none, none, none, none⟩],
     rfl, by simp⟩

/-! ## Hold adjustments (api.py adjust) -/

/-- One hold adjustment record of the adjust endpoint (api.py lines 87-89). -/
structure HoldAdjustment where
  train_id : String
  add_seconds : Int
deriving DecidableEq, Repr

/-- One hold of api.py adjust (lines 279-285): `by_id` maps each train id to
its dict — for duplicate ids the last dict wins — and the hold adds
`add_seconds` to that dict's `planned_departure` in place. Functionally:
update the last train whose id matches the hold; a hold whose id is absent
from the list changes nothing. -/
def applyHold : List TrainRequest → HoldAdjustment → List TrainRequest
  | [], _ => []
  | t :: rest, h =>
    if rest.any (fun u => u.id == h.train_id) then t :: applyHold rest h
    else if t.id = h.train_id then
      { t with planned_departure := t.planned_departure + h.add_seconds } :: rest
    else t :: rest

/-- api.py adjust lines 280-285: apply all the holds in order. -/
def applyHolds (ts : List TrainRequest) (hs : List HoldAdjustment) : List TrainRequest :=
  hs.foldl applyHold ts

/-- Total seconds the holds add to a given train id. -/
def holdSum (hs : List HoldAdjustment) (tid : String) : Int :=
  ((hs.filter (fun h => h.train_id == tid)).map HoldAdjustment.add_seconds).sum

theorem list_map_congr {α β : Type} (f g : α → β) (l : List α)
    (h : ∀ a ∈ l, f a = g a) : l.map f = l.map g := by
  induction l with
  | nil => rfl
  | cons a rest ih =>
    rw [List.map_cons, List.map_cons, h a (by simp), ih (fun x hx => h x (by simp [hx]))]

theorem list_map_id_of_fixed {α : Type} (f : α → α) (l : List α)
    (h : ∀ a ∈ l, f a = a) : l.map f = l := by
  induction l with
  | nil => rfl
  | cons a rest ih =>
    rw [List.map_cons, h a (by simp), ih (fun x hx => h x (by simp [hx]))]

theorem applyHold_eq_map (ts : List TrainRequest) (h : HoldAdjustment)
    (hnodup : (ts.map TrainRequest.id).Nodup) :
    applyHold ts h = ts.map (fun t => if t.id = h.train_id then
      { t with planned_departure := t.planned_departure + h.add_seconds } else t) := by
  induction ts with
  | nil => rfl
  | cons t rest ih =>
    rw [List.map_cons, List.nodup_cons] at hnodup
    obtain ⟨hnotin, hnd⟩ := hnodup
    rw [applyHold]
    by_cases hany : rest.any (fun u => u.id == h.train_id) = true
    · rw [if_pos hany]
      obtain ⟨u, hu, huid⟩ := List.any_eq_true.mp hany
      have hu_id : u.id = h.train_id := by simpa using huid
      have htid : t.id ≠ h.train_id := by
        intro hcontra
        exact hnotin (by rw [hcontra, ← hu_id]; exact List.mem_map_of_mem _ hu)
      rw [List.map_cons, if_neg htid, ih hnd]
    · rw [if_neg hany]
      have hnone : ∀ u ∈ rest, u.id ≠ h.train_id := by
        intro u hu hcontra
        exact hany (List.any_eq_true.mpr ⟨u, hu, by simp [hcontra]⟩)
      have hrest : rest.map (fun t => if t.id = h.train_id then
          { t with planned_departure := t.planned_departure + h.add_seconds } else t) = rest :=
        list_map_id_of_fixed _ rest (fun u hu => if_neg (hnone u hu))
      by_cases htid : t.id = h.train_id
      · rw [if_pos htid, List.map_cons, if_pos htid, hrest]
      · rw [if_neg htid, List.map_cons, if_neg htid, hrest]

theorem applyHold_ids (ts : List TrainRequest) (h : HoldAdjustment) :
    (applyHold ts h).map TrainRequest.id = ts.map TrainRequest.id := by
  induction ts with
  | nil => rfl
  | cons t rest ih =>
    rw [applyHold]
    by_cases hany : rest.any (fun u => u.id == h.train_id) = true
    · rw [if_pos hany, List.map_cons, List.map_cons, ih]
    · rw [if_neg hany]
      by_cases htid : t.id = h.train_id
      · rw [if_pos htid, List.map_cons, List.map_cons]
      · rw [if_neg htid]

theorem holdSum_cons (h : HoldAdjustment) (hs : List HoldAdjustment) (tid : String) :
    holdSum (h :: hs) tid = (if h.train_id = tid then h.add_seconds else 0) + holdSum hs tid := by
  by_cases hc : h.train_id = tid <;>
    simp [holdSum, List.filter_cons, hc]

/-- Over a state whose train ids are distinct, applying the holds rewrites
exactly the `planned_departure` of each train to its old value plus the
summed `add_seconds` of the holds naming its id (zero when no hold names it,
so such trains — and all other fields of every train — are unchanged, and
holds naming absent ids are ignored). -/
theorem applyHolds_frame (ts : List TrainRequest) (hs : List HoldAdjustment)
    (hnodup : (ts.map TrainRequest.id).Nodup) :
    applyHolds ts hs = ts.map (fun t =>
      { t with planned_departure := t.planned_departure + holdSum hs t.id }) := by
  induction hs generalizing ts with
  | nil =>
    have : ∀ t ∈ ts, ({ t with planned_departure := t.planned_departure + holdSum [] t.id }
        : TrainRequest) = t := by
      intro t _
      have hz : holdSum [] t.id = 0 := rfl
      rw [hz]
      cases t
      simp
    rw [applyHolds, List.foldl_nil, list_map_id_of_fixed _ ts this]
  | cons h hs' ih =>
    have hnd2 : ((applyHold ts h).map TrainRequest.id).Nodup := by
      rw [applyHold_ids]
      exact hnodup
    have step : applyHolds ts (h :: hs') = applyHolds (applyHold ts h) hs' := rfl
    rw [step, ih (applyHold ts h) hnd2, applyHold_eq_map ts h hnodup, List.map_map]
    refine list_map_congr _ _ ts ?_
    intro t _
    by_cases htid : t.id = h.train_id
    · simp only [Function.comp, if_pos htid]
      rw [holdSum_cons]
      rw [if_pos (htid.symm)]
      cases t
      simp
      omega
    · simp only [Function.comp, if_neg htid]
      rw [holdSum_cons]
      rw [if_neg (fun hc => htid hc.symm)]
      cases t
      simp

/-- A two-train state for exercising the holds operation. -/
def holdTrains : List TrainRequest :=
  [⟨"T1", 1, ["S1"], 0, none, none⟩, ⟨"T2", 2, ["S1"], 10, none, none⟩]

/-- Two holds on T1 (accumulating) and one hold naming an absent id. -/
def holdList : List HoldAdjustment := [⟨"T1", 5⟩, ⟨"T1", 7⟩, ⟨"TX", 3⟩]

/-- api.py `adjust` (lines 272-300), scheduling part: apply the holds to the
state's trains, build the network from the state's sections, and invoke the
dispatcher with the solver string and no MILP time limit (api.py line 300).
The KPI decoration of the response is omitted; the MILP body argument of the
dispatcher is irrelevant since that call always raises. -/
def adjust (fuel : Nat) (sections : List Section) (trains : List TrainRequest)
    (holds : List HoldAdjustment) (solver : String) : Option (List ScheduleItem) :=
  Solver.schedule_trains (fun _ _ => none) fuel (applyHolds trains holds) ⟨sections⟩ solver none

/-- C10: with distinct train ids, the hold-apply-and-reschedule operation
invokes the scheduler on exactly the original trains with only their
`planned_departure` increased by the summed add_seconds of the holds naming
their id (trains not named by any hold, and all other fields, unchanged;
holds naming absent ids ignored) and on the state's sections unchanged. -/
theorem adjust_frame (fuel : Nat) (sections : List Section) (ts : List TrainRequest)
    (hs : List HoldAdjustment) (solver : String)
    (hnodup : (ts.map TrainRequest.id).Nodup) :
    adjust fuel sections ts hs solver =
      Solver.schedule_trains (fun _ _ => none) fuel
        (ts.map fun t =>
          { t with planned_departure := t.planned_departure + holdSum hs t.id })
        ⟨sections⟩ solver none := by
  rw [adjust, applyHolds_frame ts hs hnodup]

/-- Section for the adjust witness. -/
def holdSec : Section := ⟨"S1", 10, 20, none, none, none, none⟩

/-- Witness for C10: on the concrete state, T1's departure becomes 0+5+7=12,
T2 stays at 10, the hold naming the absent id TX is ignored, and the
rescheduled output is the greedy schedule of the adjusted trains. -/
theorem adjust_frame_witness :
    (holdTrains.map TrainRequest.id).Nodup ∧
    adjust 100 [holdSec] holdTrains holdList "greedy" =
      Solver.schedule_trains (fun _ _ => none) 100
        (holdTrains.map fun t =>
          { t with planned_departure := t.planned_departure + holdSum holdList t.id })
        ⟨[holdSec]⟩ "greedy" none ∧
    applyHolds holdTrains holdList =
      [⟨"T1", 1, ["S1"], 12, none, none⟩, ⟨"T2", 2, ["S1"], 10, none, none⟩] ∧
    adjust 100 [holdSec] holdTrains holdList "greedy" =
      some [⟨"T2", "S1", 10, 30⟩, ⟨"T1", "S1", 40, 60⟩] :=
  ⟨by decide, adjust_frame 100 [holdSec] holdTrains holdList "greedy" (by decide),
   by decide, by decide⟩

/-- A schedule for the OTP witness: T1 enters its terminal section at 100,
T2 at 400. -/
def kpiItems : List ScheduleItem :=
  [⟨"T1", "S1", 100, 150⟩, ⟨"T2", "S1", 400, 450⟩]

/-- Trains for the OTP witness: T1 due 100 (lateness 0), T2 due 390
(lateness 10). -/
def kpiTrains : List TrainRequest :=
  [⟨"T1", 1, ["S1"], 0, none, some 100⟩, ⟨"T2", 1, ["S1"], 0, none, some 390⟩]

/-- Witness for C8: on the concrete schedule, otp_end at tolerance 0 is 50
and at tolerance 10 is 100, and the monotonicity theorem applies. -/
theorem otp_end_mono_witness :
    otp_end kpiItems kpiTrains 0 = 50 ∧ otp_end kpiItems kpiTrains 10 = 100 ∧
    otp_end kpiItems kpiTrains 0 ≤ otp_end kpiItems kpiTrains 10 :=
  ⟨by simp +decide [otp_end, lateness_map, latenessStep, upsert, kpiItems, kpiTrains]; norm_num,
   by simp +decide [otp_end, lateness_map, latenessStep, upsert, kpiItems, kpiTrains],
   otp_end_mono kpiItems kpiTrains 0 10 (by decide) (by decide)⟩
